import Mathlib

/-!
Verification development for the investor task-scheduling and decision
engine of the isucon8-final benchmarker (`bench/investor.go`).

The Go code is shallowly embedded: Go `int64` values are modelled as
unbounded `Int` (no claim under consideration concerns overflow),
`time.Time` values as `Nat` instants, fallible actions as `Except` /
result pairs, and the per-investor mutable struct as an explicit
`InvestorState` record threaded through each operation.  Randomness
(`rand.Int63n`) is passed in as an explicit draw function, and the
response of each network call of the external client is passed in as an
explicit argument, since the HTTP client is an external collaborator.
-/

/-- Order side, `TradeTypeSell` / `TradeTypeBuy` in the Go sources. -/
inductive TradeType where
  | sell
  | buy
deriving DecidableEq, Repr

/-- Settlement record attached to a settled order (`Trade` in Go);
only the trade price is consulted by the investor code. -/
structure Trade where
  price : Int
deriving DecidableEq, Repr

/-- An order as tracked by the bench investor (`Order` in Go).
`otype` is the Go field `Type` (renamed: `Type` is reserved in Lean),
`closedAt` the optional close time, `trade` the optional settlement. -/
structure Order where
  id : Int
  otype : TradeType
  amount : Int
  price : Int
  closedAt : Option Nat
  trade : Option Trade
deriving DecidableEq, Repr

/-- Modelled from the spec: the method `Order.Removed` is declared in a
bench source file that is not under `src/`.  Per the spec's order
lifecycle (§3), an order is *closed* when it was cancelled — it carries
a close time but no trade-settlement record; settled orders (trade
present) are never treated as removed. -/
def Order.removed (o : Order) : Bool :=
  o.closedAt.isSome && o.trade.isNone

/-- Symbolic name for a task produced by the investor.  Tasks are
represented by what they would do when run; the claims under study only
concern which tasks are produced and in which order. -/
inductive TaskTag where
  | top
  | signup
  | signin
  | info
  | updateOrders
  | fixNext
  | addOrder (ot : TradeType) (amount : Int) (price : Int)
  | removeOrder (oid : Int)
deriving DecidableEq, Repr

/-- The mutable per-investor state.  This flattens `investorBase`
together with the two policy fields (`unitamount`, `unitprice`) of
`RandomInvestor`, which embeds `investorBase` in Go.  `retired` is the
snapshot of the external client's `IsRetired()`. -/
structure InvestorState where
  defcredit : Int
  credit : Int
  resvedCredit : Int
  defisu : Int
  isu : Int
  resvedIsu : Int
  orders : List Order
  lowestSellPrice : Int
  highestBuyPrice : Int
  latestTradePrice : Int
  lastCursor : Int
  pollingTime : Nat
  lastOrder : Nat
  taskStack : List TaskTag
  retired : Bool
  unitamount : Int
  unitprice : Int
deriving DecidableEq, Repr

/-- Result of running the `UpdateOrders` task body.  `crash` marks the
Go execution that panics (an out-of-range slice index), which has no
defined result value in a total embedding. -/
inductive UResult where
  | crash
  | err (msg : String)
  | ok (s : InvestorState)
deriving DecidableEq, Repr

/-- `OrderCap`, from the source (`bench/investor.go`). -/
def OrderCap : Nat := 5

/-- Modelled from the spec: the order-update interval is a tunable
constant declared outside `src/`; only its positivity matters here. -/
def OrderUpdateInterval : Nat := 2

/-- Modelled from the spec: the polling interval is a tunable constant
declared outside `src/`. -/
def PollingInterval : Nat := 2

/-- Modelled from the spec: the fixed reward for a successful order
placement; the constant's value is declared outside `src/`. -/
def PostOrdersScore : Int := 5

/-- Modelled from the spec: the fixed reward for a successful info
poll; the constant's value is declared outside `src/`. -/
def GetInfoScore : Int := 1

/-- The consistency-violation message of the pre-merge check in
`UpdateOrders` (`GET /orders 注文内容が反映されていません`). -/
def updateMismatchMsg : String := "GET /orders 注文内容が反映されていません"

/-- The consistency-violation message raised when a tracked sell order
is missing from the server's order list. -/
def missingSellMsg (oid : Int) : String :=
  s!"GET /orders 売り注文が足りないか削除されています {oid}"

/-- The business-error fragment recognised by `AddOrder`
(`銀行残高が足りません`, "insufficient bank balance"). -/
def bankLackMsg : String := "銀行残高が足りません"

/-- Character-list version of "the first list starts with the second". -/
def startsWithCh : List Char → List Char → Bool
  | _, [] => true
  | [], _ :: _ => false
  | c :: cs, d :: ds => c == d && startsWithCh cs ds

/-- Character-list substring occurrence. -/
def occursInCh : List Char → List Char → Bool
  | [], needle => needle.isEmpty
  | c :: rest, needle => startsWithCh (c :: rest) needle || occursInCh rest needle

/-- Models Go's `strings.Index(hay, needle) > -1` (substring test). -/
def strContains (hay needle : String) : Bool :=
  occursInCh hay.toList needle.toList

/-- The first server order with the given local order's id
(`for _, ro := range orders { if ro.ID == o.ID { ... break } }`). -/
def serverMatch (server : List Order) (o : Order) : Option Order :=
  server.find? (fun ro => ro.id == o.id)

/-- The merge loop of `UpdateOrders` (`bench/investor.go` lines
200–238): walks the locally tracked orders, skipping removed ones,
resolving each against the server list, and accumulating
`(resvedCredit, resvedIsu, tradedCredit, tradedIsu)` from scratch.
Returns the updated local order list together with the accumulators;
fails with the consistency error when a live sell order is missing. -/
def mergeLoop (server : List Order) (now : Nat) :
    List Order → Except String (List Order × Int × Int × Int × Int)
  | [] => Except.ok ([], 0, 0, 0, 0)
  | o :: rest =>
    if o.removed then
      match mergeLoop server now rest with
      | Except.error m => Except.error m
      | Except.ok (l, rc, ri, tc, ti) => Except.ok (o :: l, rc, ri, tc, ti)
    else
      match serverMatch server o with
      | none =>
        if o.otype = TradeType.sell then
          Except.error (missingSellMsg o.id)
        else
          match mergeLoop server now rest with
          | Except.error m => Except.error m
          | Except.ok (l, rc, ri, tc, ti) =>
            Except.ok ({ o with closedAt := some now } :: l, rc, ri, tc, ti)
      | some ro =>
        match mergeLoop server now rest with
        | Except.error m => Except.error m
        | Except.ok (l, rc, ri, tc, ti) =>
          match ro.trade with
          | some t =>
            if ro.otype = TradeType.sell then
              Except.ok (ro :: l, rc, ri, tc + ro.amount * t.price, ti - ro.amount)
            else
              Except.ok (ro :: l, rc, ri, tc - ro.amount * t.price, ti + ro.amount)
          | none =>
            if ro.otype = TradeType.sell then
              Except.ok (ro :: l, rc, ri + ro.amount, tc, ti)
            else
              Except.ok (ro :: l, rc + ro.amount * ro.price, ri, tc, ti)

/-- The body of the `UpdateOrders` task (`bench/investor.go` lines
181–245), given the successful response `server` of the client's
`GetOrders` call and the current time `now`.  First the pre-merge check:
if the most recent local order is a sell, the most recent server order
(`orders[len(orders)-1]`, which panics in Go when the server list is
empty — `UResult.crash`) must carry the same id.  Then the merge loop
runs and, on success, the recomputed reserved and traded sums replace
the investor's balances. -/
def updateOrders (s : InvestorState) (server : List Order) (now : Nat) : UResult :=
  let merged :=
    match mergeLoop server now s.orders with
    | Except.error m => UResult.err m
    | Except.ok (l, rc, ri, tc, ti) =>
      UResult.ok { s with
        orders := l
        resvedIsu := ri
        resvedCredit := rc
        credit := s.defcredit + tc
        isu := s.defisu + ti }
  match s.orders.getLast? with
  | none => merged
  | some lo =>
    if lo.otype = TradeType.sell then
      match server.getLast? with
      | none => UResult.crash
      | some glo =>
        if lo.id ≠ glo.id then UResult.err updateMismatchMsg else merged
    else
      merged

/-- The pre-merge most-recent-order check of `UpdateOrders` passes
without error (used to state when reconciliation can succeed). -/
def lastOrderCheck (s : InvestorState) (server : List Order) : Bool :=
  match s.orders.getLast? with
  | none => true
  | some lo =>
    if lo.otype = TradeType.sell then
      match server.getLast? with
      | none => false
      | some glo => lo.id == glo.id
    else true

/-- The opposing-price margin computed by the release branch of
`RandomInvestor.UpdateOrderTask` (lines 392–398): for a sell order its
price minus the highest buy price, for a buy order the lowest sell
price minus its price. -/
def margin (s : InvestorState) (o : Order) : Int :=
  if o.otype = TradeType.sell then o.price - s.highestBuyPrice
  else s.lowestSellPrice - o.price

/-- The release-selection loop of the `OrderCap` branch (lines
390–403): scans the whole local order list keeping the first order
whose margin is strictly greater than the best seen so far. -/
def releaseLoop (s : InvestorState) :
    Option Order → Int → List Order → Option Order × Int
  | best, df, [] => (best, df)
  | best, df, order :: rest =>
    let mdiff := margin s order
    if best.isNone || df < mdiff then releaseLoop s (some order) mdiff rest
    else releaseLoop s best df rest

/-- The body of `RandomInvestor.UpdateOrderTask` (lines 373–448).
`randInt n` models the draw `rand.Int63n(n)` (in Go, a value in
`[0, n)`).  Returns the proposed task, if any, together with the
investor state (only the adaptive re-pricing branch mutates it).
Go's truncating integer division is `Int.tdiv`. -/
def updateOrderTask (s : InvestorState) (now : Nat) (randInt : Int → Int) :
    Option TaskTag × InvestorState :=
  if s.retired then (none, s)
  else
    let update := s.orders.length == 0 || now < s.lastOrder + OrderUpdateInterval
    if !update then (none, s)
    else
      let logicalCredit := s.credit - s.resvedCredit
      let logicalIsu := s.isu - s.resvedIsu
      if OrderCap ≤ s.orders.length then
        match (releaseLoop s none 0 s.orders).1 with
        | some o => (some (TaskTag.removeOrder o.id), s)
        | none => (none, s)
      else if s.orders.length == 0 && logicalIsu > s.unitamount then
        (some (TaskTag.addOrder TradeType.sell s.unitamount s.unitprice), s)
      else if s.orders.length == 0 then
        (some (TaskTag.addOrder TradeType.buy s.unitamount s.unitprice), s)
      else if s.lowestSellPrice > 0 && s.lowestSellPrice < s.unitprice
          && s.lowestSellPrice ≤ logicalCredit then
        let amount0 := randInt (Int.tdiv logicalCredit s.lowestSellPrice) + 1
        let amount := if s.unitamount < amount0 then s.unitamount else amount0
        (some (TaskTag.addOrder TradeType.buy amount s.lowestSellPrice), s)
      else if s.highestBuyPrice > 0 && s.highestBuyPrice > s.unitprice
          && logicalIsu > 0 then
        let amount0 := randInt logicalIsu + 1
        let amount := if s.unitamount < amount0 then s.unitamount else amount0
        (some (TaskTag.addOrder TradeType.sell amount s.highestBuyPrice), s)
      else if logicalIsu > s.unitamount then
        let price := if s.lowestSellPrice == 0 then s.unitprice
          else Int.tdiv (s.lowestSellPrice + s.unitprice) 2
        (some (TaskTag.addOrder TradeType.sell (randInt s.unitamount + 1) price), s)
      else if logicalCredit > Int.tdiv (s.highestBuyPrice + s.unitprice) 2 then
        let price := if s.highestBuyPrice == 0 then s.unitprice
          else Int.tdiv (s.highestBuyPrice + s.unitprice) 2
        (some (TaskTag.addOrder TradeType.buy (randInt s.unitamount + 1) price), s)
      else
        if s.latestTradePrice > 0 then
          (none, { s with unitprice := Int.tdiv (s.latestTradePrice + s.unitprice) 2 })
        else (none, s)

/-- One hourly candle of the info response; only `close` is read. -/
structure Candle where
  close : Int
deriving DecidableEq, Repr

/-- The decoded response of the client's `Info(cursor)` call. -/
structure InfoResponse where
  lowestSellPrice : Int
  highestBuyPrice : Int
  cursor : Int
  chartByHour : List Candle
  tradedOrders : List Order
deriving DecidableEq, Repr

/-- The body of the info-polling task (`bench/investor.go` lines
148–179), given the current time and the client response (an `Except`,
since the call may fail).  Modelled from the spec where the task
wrapper is concerned: the `taskworker` score plumbing is outside
`src/`, so the task's observable result is modelled as the returned
`(score, optional error)` pair.  Retired or rate-limited polls are
zero-score no-ops; a successful poll refreshes the market view,
advances the cursor, re-arms the poll timer, and defers an
order-reconciliation task when newly traded orders are reported. -/
def infoTask (s : InvestorState) (now : Nat) (resp : Except String InfoResponse) :
    (Int × Option String) × InvestorState :=
  if s.retired then ((0, none), s)
  else if now < s.pollingTime then ((0, none), s)
  else
    match resp with
    | Except.error e => ((0, some e), s)
    | Except.ok info =>
      let s1 := { s with
        pollingTime := now + PollingInterval
        lowestSellPrice := info.lowestSellPrice
        highestBuyPrice := info.highestBuyPrice
        lastCursor := info.cursor }
      let s2 :=
        match info.chartByHour.getLast? with
        | some c => { s1 with latestTradePrice := c.close }
        | none => s1
      let s3 :=
        if info.tradedOrders.length > 0 then
          { s2 with taskStack := s2.taskStack ++ [TaskTag.updateOrders] }
        else s2
      ((GetInfoScore, none), s3)

/-- The body of the order-placement task (`bench/investor.go` lines
247–263), given the client response.  Modelled from the spec where the
`taskworker` wrapper is concerned: per the spec a failing task yields
an error and no score, a benign business failure (the recognised
insufficient-balance message) is a zero-score no-op, and a genuine
success yields the fixed placement reward.  On success the order is
recorded locally and the last-order time is advanced. -/
def addOrderTask (s : InvestorState) (resp : Except String Order) (now : Nat) :
    (Int × Option String) × InvestorState :=
  match resp with
  | Except.error e =>
    if strContains e bankLackMsg then ((0, none), s)
    else ((0, some e), s)
  | Except.ok order =>
    ((PostOrdersScore, none),
      { s with orders := s.orders ++ [order], lastOrder := now })

/-- `investorBase.Next` (lines 307–320): no task once retired;
otherwise a serial composite of a fresh info poll followed by the
drained deferred-task queue, which is cleared. -/
def investorBaseNext (s : InvestorState) : Option (List TaskTag) × InvestorState :=
  if s.retired then (none, s)
  else (some (TaskTag.info :: s.taskStack), { s with taskStack := [] })

/-- `RandomInvestor.Next` (lines 351–361): re-checks retirement, then
appends the policy-decision task (`FixNextTask`) to the base
composite. -/
def randomInvestorNext (s : InvestorState) : Option (List TaskTag) × InvestorState :=
  if s.retired then (none, s)
  else
    match investorBaseNext s with
    | (some ts, s1) => (some (ts ++ [TaskTag.fixNext]), s1)
    | (none, s1) => (none, s1)

/-- The server orders a live local order resolves to, in local order:
the claim's "unsettled open ... orders" are read off this merge view. -/
def mergedOrders (orders server : List Order) : List Order :=
  (orders.filter (fun o => !o.removed)).filterMap (serverMatch server)

/-- The claim's "sum of unsettled open buy order notional", recomputed
from scratch over the merged view. -/
def openBuyNotional (orders server : List Order) : Int :=
  (((mergedOrders orders server).filter
      (fun ro => ro.trade.isNone && ro.otype == TradeType.buy)).map
    (fun ro => ro.amount * ro.price)).sum

/-- The claim's "sum of unsettled open sell order amounts". -/
def openSellAmount (orders server : List Order) : Int :=
  (((mergedOrders orders server).filter
      (fun ro => ro.trade.isNone && ro.otype == TradeType.sell)).map
    (fun ro => ro.amount)).sum

/-- The claim's "net effect of all settled trades" on credit: a settled
sell adds its notional at the trade price, a settled buy subtracts
it. -/
def settledCreditDelta (orders server : List Order) : Int :=
  ((mergedOrders orders server).filterMap
    (fun ro => ro.trade.map
      (fun t => if ro.otype = TradeType.sell then ro.amount * t.price
                else -(ro.amount * t.price)))).sum

/-- The claim's "net effect of all settled trades" on inventory: a
settled sell removes its amount, a settled buy adds it. -/
def settledIsuDelta (orders server : List Order) : Int :=
  ((mergedOrders orders server).filterMap
    (fun ro => ro.trade.map
      (fun _ => if ro.otype = TradeType.sell then -ro.amount else ro.amount))).sum

/-- Defined from the claim's words: the first order of the list
attaining the maximal opposing-price margin (ties broken in favour of
the earlier order). -/
def firstMaxMargin (s : InvestorState) : List Order → Option Order
  | [] => none
  | o :: rest =>
    match firstMaxMargin s rest with
    | none => some o
    | some b => if margin s o < margin s b then some b else some o

/-! ### Concrete states used by witnesses and counterexamples -/

/-- A plain non-retired investor with endowment 10000 credit / 0 isu. -/
def baseState : InvestorState :=
  { defcredit := 10000, credit := 10000, resvedCredit := 0,
    defisu := 0, isu := 0, resvedIsu := 0, orders := [],
    lowestSellPrice := 0, highestBuyPrice := 0, latestTradePrice := 0,
    lastCursor := 0, pollingTime := 0, lastOrder := 0, taskStack := [],
    retired := false, unitamount := 5, unitprice := 100 }

/-- An open buy order of notional 1000. -/
def c1buy : Order := ⟨1, TradeType.buy, 10, 100, none, none⟩

/-- An investor with endowment 100 tracking the open buy `c1buy`. -/
def c1state : InvestorState :=
  { baseState with defcredit := 100, credit := 100, orders := [c1buy] }

/-- The open buy of the settlement scenario: 5 units at limit 100. -/
def c2buy : Order := ⟨1, TradeType.buy, 5, 100, none, none⟩

/-- The server's view of `c2buy` after full settlement at price 90. -/
def c2srv : Order := ⟨1, TradeType.buy, 5, 100, some 6, some ⟨90⟩⟩

/-- The scenario investor: endowment 10000 credit / 0 isu, tracking
the open buy `c2buy`. -/
def c2state : InvestorState := { baseState with orders := [c2buy] }

/-- The reconciled scenario investor: inventory 5, credit 9550. -/
def c2after : InvestorState :=
  { c2state with orders := [c2srv], credit := 9550, isu := 5 }

/-- An open sell order tracked locally. -/
def s3aSell : Order := ⟨2, TradeType.sell, 3, 120, none, none⟩

/-- An investor tracking only the open sell `s3aSell`. -/
def s3aState : InvestorState := { baseState with orders := [s3aSell] }

/-- A server order list not containing `s3aSell`'s id. -/
def srv3a : List Order := [⟨9, TradeType.sell, 1, 1, none, none⟩]

/-- An open buy order tracked locally. -/
def s3bBuy : Order := ⟨3, TradeType.buy, 2, 50, none, none⟩

/-- An investor tracking only the open buy `s3bBuy`. -/
def s3bState : InvestorState := { baseState with orders := [s3bBuy] }

/-- `s3bState` after reconciling against an empty server list at time
4: the vanished buy is marked closed at 4. -/
def s3bAfter : InvestorState :=
  { s3bState with orders := [⟨3, TradeType.buy, 2, 50, some 4, none⟩] }

/-- An open sell at price 15, used five times with distinct ids. -/
def openSell (i : Int) : Order := ⟨i, TradeType.sell, 1, 15, none, none⟩

/-- A closed (cancelled) sell at price 100 — large opposing margin. -/
def closedSell6 : Order := ⟨6, TradeType.sell, 1, 100, some 1, none⟩

/-- An investor with exactly `OrderCap` open orders of margin 5 plus
one closed order of margin 90, inside the recency window. -/
def c4state : InvestorState :=
  { baseState with
    orders := [openSell 1, openSell 2, openSell 3, openSell 4, openSell 5,
               closedSell6],
    highestBuyPrice := 10, lowestSellPrice := 20, lastOrder := 5 }

/-- A fixed PRNG draw: `rand.Int63n` returning 0 (a legal draw). -/
def zeroRand : Int → Int := fun _ => 0

/-- A closed (cancelled) buy order. -/
def closedBuy7 : Order := ⟨7, TradeType.buy, 1, 10, some 2, none⟩

/-- An investor with zero open orders (one closed buy recorded),
available inventory 20 > unit amount 5, and a cheap best ask. -/
def c5state : InvestorState :=
  { baseState with
    orders := [closedBuy7], isu := 20, lowestSellPrice := 50, lastOrder := 3 }

/-- An investor with no recorded orders and inventory 20. -/
def c5witState : InvestorState := { baseState with isu := 20 }

/-- A client error message carrying the insufficient-balance fragment. -/
def e6msg : String := "POST /orders: 銀行残高が足りません"

/-- An investor whose next poll is armed at time 9. -/
def c7state : InvestorState := { baseState with pollingTime := 9 }

/-- A successful info response (empty chart, no traded orders). -/
def c7resp : InfoResponse :=
  { lowestSellPrice := 1, highestBuyPrice := 1, cursor := 3,
    chartByHour := [], tradedOrders := [] }

/-- An investor with queued deferred tasks, used for `Next`. -/
def c8state : InvestorState :=
  { baseState with taskStack := [TaskTag.updateOrders, TaskTag.top] }

/-- An open sell order tracked locally (crash scenario). -/
def sell9 : Order := ⟨4, TradeType.sell, 1, 100, none, none⟩

/-- An investor whose most recent local order is the open sell
`sell9`. -/
def c9state : InvestorState := { baseState with orders := [sell9] }

/-- An investor with one recorded order, idle since time 1. -/
def c10state : InvestorState :=
  { baseState with orders := [closedBuy7], lastOrder := 1 }

/-! ### Theorems -/

/-- Claim C9 (confirmed): there is a state — most recent local order an
open sell — in which a successful `GetOrders` returning an empty list
drives the pre-merge check of `UpdateOrders` to index the last element
of the empty server list, which has no defined value in a total
embedding (a Go panic), instead of returning a consistency error. -/
theorem updateOrders_empty_server_crash :
    updateOrders c9state [] 3 = UResult.crash ∧
      c9state.orders.getLast? = some sell9 ∧ sell9.otype = TradeType.sell := by
  decide

/-- Claim C10 (confirmed): the recency gate of `UpdateOrderTask`: with
at least one recorded order and the last successful placement at least
`OrderUpdateInterval` in the past, the task proposes nothing and leaves
the state untouched — no branch of the rule ladder runs. -/
theorem updateOrderTask_idle_no_action
    (s : InvestorState) (now : Nat) (randInt : Int → Int)
    (hord : s.orders ≠ []) (hidle : s.lastOrder + OrderUpdateInterval ≤ now) :
    updateOrderTask s now randInt = (none, s) := by
  by_cases hr : s.retired
  · simp [updateOrderTask, hr]
  · have h0 : (s.orders.length == 0) = false := by
      simp only [beq_eq_false_iff_ne, ne_eq]
      exact fun h => hord (List.length_eq_zero.mp h)
    have h1 : decide (now < s.lastOrder + OrderUpdateInterval) = false := by
      simp only [decide_eq_false_iff_not, not_lt]
      exact hidle
    simp [updateOrderTask, hr, h0, h1]

/-- Witness for the recency gate: a concrete idle investor gets no
task. -/
theorem updateOrderTask_idle_no_action_wit :
    updateOrderTask c10state 3 zeroRand = (none, c10state) :=
  updateOrderTask_idle_no_action c10state 3 zeroRand (by decide) (by decide)

/-- Claim C8 (confirmed): `Next` on a retired investor returns no task
and changes nothing; on a live investor it returns the serial composite
`[info-poll, queued deferred tasks in FIFO order, policy decision]` and
clears the deferred-task queue. -/
theorem randomInvestorNext_spec (s : InvestorState) :
    randomInvestorNext s =
      if s.retired then (none, s)
      else (some (TaskTag.info :: (s.taskStack ++ [TaskTag.fixNext])),
            { s with taskStack := [] }) := by
  by_cases hr : s.retired <;>
    simp [randomInvestorNext, investorBaseNext, hr]

/-- Claim C7 (confirmed): an info poll strictly before the armed poll
time is a score-0, error-free no-op leaving the whole investor state —
market view, cursor, deferred queue — unchanged. -/
theorem infoTask_skip_before_pollingTime
    (s : InvestorState) (now : Nat) (resp : Except String InfoResponse)
    (h : now < s.pollingTime) :
    infoTask s now resp = ((0, none), s) := by
  by_cases hr : s.retired <;> simp [infoTask, hr, h]

/-- Witness for the rate-limited poll: polling at time 3 with the next
poll armed at 9 changes nothing and scores 0. -/
theorem infoTask_skip_before_pollingTime_wit :
    infoTask c7state 3 (Except.ok c7resp) = ((0, none), c7state) :=
  infoTask_skip_before_pollingTime c7state 3 (Except.ok c7resp) (by decide)

/-- Claim C6 (confirmed): an order placement whose client call fails
with the recognised insufficient-balance business error completes as a
successful zero-score no-op: no error is propagated and the local state
(in particular the recorded order list and last-order time) is
unchanged. -/
theorem addOrderTask_insufficient_balance_benign
    (s : InvestorState) (e : String) (now : Nat)
    (h : strContains e bankLackMsg = true) :
    addOrderTask s (Except.error e) now = ((0, none), s) := by
  simp [addOrderTask, h]

/-- Witness for the benign balance error at a concrete message. -/
theorem addOrderTask_insufficient_balance_benign_wit :
    addOrderTask baseState (Except.error e6msg) 5 = ((0, none), baseState) :=
  addOrderTask_insufficient_balance_benign baseState e6msg 5 (by decide)

/-- Counterexample to claim C5 as stated: this investor has zero open
orders (its one recorded order is closed) and available inventory 20
above the unit amount 5, yet the decision policy proposes a buy — the
initial-sell branch keys on the whole recorded order list being empty,
not on the open orders. -/
theorem updateOrderTask_initial_sell_cex :
    updateOrderTask c5state 4 zeroRand
        = (some (TaskTag.addOrder TradeType.buy 1 50), c5state) ∧
      (c5state.orders.filter (fun o => !o.removed)).length = 0 ∧
      c5state.unitamount < c5state.isu - c5state.resvedIsu := by
  decide

/-- Claim C5 (amended): for every non-retired investor with an *empty
recorded order list* whose available inventory exceeds the unit
amount, the decision policy proposes an initial sell of the unit
amount at the reference price (never a buy). -/
theorem updateOrderTask_initial_sell
    (s : InvestorState) (now : Nat) (randInt : Int → Int)
    (hret : s.retired = false) (hord : s.orders = [])
    (hisu : s.unitamount < s.isu - s.resvedIsu) :
    updateOrderTask s now randInt
      = (some (TaskTag.addOrder TradeType.sell s.unitamount s.unitprice), s) := by
  simp [updateOrderTask, hret, hord, OrderCap, hisu]

/-- Witness for the initial sell: a fresh investor with inventory 20
proposes selling 5 at 100. -/
theorem updateOrderTask_initial_sell_wit :
    updateOrderTask c5witState 0 zeroRand
      = (some (TaskTag.addOrder TradeType.sell 5 100), c5witState) :=
  updateOrderTask_initial_sell c5witState 0 zeroRand (by decide) (by decide) (by decide)

/-- Counterexample to claim C4 as stated: this investor has exactly
`OrderCap` open orders (margin 5 each), but the release scan runs over
the whole recorded order list, so it proposes cancelling the *closed*
order id 6 (margin 90) rather than the open order of maximal margin. -/
theorem updateOrderTask_cap_cex :
    updateOrderTask c4state 5 zeroRand
        = (some (TaskTag.removeOrder 6), c4state) ∧
      (c4state.orders.filter (fun o => !o.removed)).length = OrderCap ∧
      (∀ o ∈ c4state.orders, o.id = 6 → o.removed = true) := by
  decide

/-! ### Merge-loop characterisation lemmas -/

theorem mergedOrders_cons_removed {o : Order} (rest server : List Order)
    (h : o.removed = true) :
    mergedOrders (o :: rest) server = mergedOrders rest server := by
  simp [mergedOrders, List.filter_cons, h]

theorem mergedOrders_cons_miss {o : Order} {server : List Order} (rest : List Order)
    (h : o.removed = false) (h2 : serverMatch server o = none) :
    mergedOrders (o :: rest) server = mergedOrders rest server := by
  simp [mergedOrders, List.filter_cons, h, List.filterMap_cons, h2]

theorem mergedOrders_cons_hit {o ro : Order} {server : List Order} (rest : List Order)
    (h : o.removed = false) (h2 : serverMatch server o = some ro) :
    mergedOrders (o :: rest) server = ro :: mergedOrders rest server := by
  simp [mergedOrders, List.filter_cons, h, List.filterMap_cons, h2]

theorem openBuyNotional_cons_hit {o ro : Order} {server : List Order} (rest : List Order)
    (h : o.removed = false) (h2 : serverMatch server o = some ro) :
    openBuyNotional (o :: rest) server =
      (if ro.trade.isNone && ro.otype == TradeType.buy then ro.amount * ro.price
       else 0) + openBuyNotional rest server := by
  unfold openBuyNotional
  rw [mergedOrders_cons_hit rest h h2]
  by_cases hc : (ro.trade.isNone && ro.otype == TradeType.buy) = true <;>
    simp [List.filter_cons, hc]

theorem openSellAmount_cons_hit {o ro : Order} {server : List Order} (rest : List Order)
    (h : o.removed = false) (h2 : serverMatch server o = some ro) :
    openSellAmount (o :: rest) server =
      (if ro.trade.isNone && ro.otype == TradeType.sell then ro.amount
       else 0) + openSellAmount rest server := by
  unfold openSellAmount
  rw [mergedOrders_cons_hit rest h h2]
  by_cases hc : (ro.trade.isNone && ro.otype == TradeType.sell) = true <;>
    simp [List.filter_cons, hc]

theorem settledCreditDelta_cons_hit {o ro : Order} {server : List Order} (rest : List Order)
    (h : o.removed = false) (h2 : serverMatch server o = some ro) :
    settledCreditDelta (o :: rest) server =
      (match ro.trade with
       | none => 0
       | some t => if ro.otype = TradeType.sell then ro.amount * t.price
                   else -(ro.amount * t.price)) + settledCreditDelta rest server := by
  unfold settledCreditDelta
  rw [mergedOrders_cons_hit rest h h2]
  cases htr : ro.trade <;> simp [List.filterMap_cons, htr]

theorem settledIsuDelta_cons_hit {o ro : Order} {server : List Order} (rest : List Order)
    (h : o.removed = false) (h2 : serverMatch server o = some ro) :
    settledIsuDelta (o :: rest) server =
      (match ro.trade with
       | none => 0
       | some _ => if ro.otype = TradeType.sell then -ro.amount
                   else ro.amount) + settledIsuDelta rest server := by
  unfold settledIsuDelta
  rw [mergedOrders_cons_hit rest h h2]
  cases htr : ro.trade <;> simp [List.filterMap_cons, htr]

theorem mergeLoop_ok_spec (server : List Order) (now : Nat) :
    ∀ orders l rc ri tc ti,
      mergeLoop server now orders = Except.ok (l, rc, ri, tc, ti) →
      rc = openBuyNotional orders server ∧
      ri = openSellAmount orders server ∧
      tc = settledCreditDelta orders server ∧
      ti = settledIsuDelta orders server ∧
      List.Forall₂ (fun o oN =>
        o.removed = false → serverMatch server o = none →
          oN = { o with closedAt := some now }) orders l := by
  intro orders
  induction orders with
  | nil =>
    intro l rc ri tc ti h
    simp only [mergeLoop, Except.ok.injEq, Prod.mk.injEq] at h
    obtain ⟨h1, h2, h3, h4, h5⟩ := h
    subst h1 h2 h3 h4 h5
    refine ⟨?_, ?_, ?_, ?_, List.Forall₂.nil⟩ <;>
      simp [openBuyNotional, openSellAmount, settledCreditDelta, settledIsuDelta,
            mergedOrders]
  | cons o rest ih =>
    intro l rc ri tc ti h
    rw [mergeLoop] at h
    by_cases hrem : o.removed = true
    · rw [if_pos hrem] at h
      cases hml : mergeLoop server now rest with
      | error m => rw [hml] at h; simp at h
      | ok tup =>
        obtain ⟨l2, rc2, ri2, tc2, ti2⟩ := tup
        rw [hml] at h
        simp only [Except.ok.injEq, Prod.mk.injEq] at h
        obtain ⟨hl, hrc, hri, htc, hti⟩ := h
        obtain ⟨Hrc, Hri, Htc, Hti, Hfa⟩ := ih l2 rc2 ri2 tc2 ti2 hml
        subst hl hrc hri htc hti
        have hske : mergedOrders (o :: rest) server = mergedOrders rest server :=
          mergedOrders_cons_removed rest server hrem
        refine ⟨?_, ?_, ?_, ?_, ?_⟩
        · rw [Hrc]; unfold openBuyNotional; rw [hske]
        · rw [Hri]; unfold openSellAmount; rw [hske]
        · rw [Htc]; unfold settledCreditDelta; rw [hske]
        · rw [Hti]; unfold settledIsuDelta; rw [hske]
        · exact List.Forall₂.cons
            (fun hf _ => absurd (hf ▸ hrem) (by decide)) Hfa
    · have hrem' : o.removed = false := by
        cases hb : o.removed
        · rfl
        · exact absurd hb hrem
      rw [if_neg hrem] at h
      cases hsm : serverMatch server o with
      | none =>
        rw [hsm] at h
        by_cases hot : o.otype = TradeType.sell
        · rw [if_pos hot] at h; simp at h
        · rw [if_neg hot] at h
          cases hml : mergeLoop server now rest with
          | error m => rw [hml] at h; simp at h
          | ok tup =>
            obtain ⟨l2, rc2, ri2, tc2, ti2⟩ := tup
            rw [hml] at h
            simp only [Except.ok.injEq, Prod.mk.injEq] at h
            obtain ⟨hl, hrc, hri, htc, hti⟩ := h
            obtain ⟨Hrc, Hri, Htc, Hti, Hfa⟩ := ih l2 rc2 ri2 tc2 ti2 hml
            subst hl hrc hri htc hti
            have hske : mergedOrders (o :: rest) server = mergedOrders rest server :=
              mergedOrders_cons_miss rest hrem' hsm
            refine ⟨?_, ?_, ?_, ?_, ?_⟩
            · rw [Hrc]; unfold openBuyNotional; rw [hske]
            · rw [Hri]; unfold openSellAmount; rw [hske]
            · rw [Htc]; unfold settledCreditDelta; rw [hske]
            · rw [Hti]; unfold settledIsuDelta; rw [hske]
            · exact List.Forall₂.cons (fun _ _ => rfl) Hfa
      | some ro =>
        simp only [hsm] at h
        cases hml : mergeLoop server now rest with
        | error m => simp [hml] at h
        | ok tup =>
          obtain ⟨l2, rc2, ri2, tc2, ti2⟩ := tup
          simp only [hml] at h
          obtain ⟨Hrc, Hri, Htc, Hti, Hfa⟩ := ih l2 rc2 ri2 tc2 ti2 hml
          have hfa2 : List.Forall₂ (fun o oN =>
              o.removed = false → serverMatch server o = none →
                oN = { o with closedAt := some now }) (o :: rest) (ro :: l2) :=
            List.Forall₂.cons (fun _ hn => absurd (hn ▸ hsm) (by simp)) Hfa
          have hbn := openBuyNotional_cons_hit (o := o) rest hrem' hsm
          have hsa := openSellAmount_cons_hit (o := o) rest hrem' hsm
          have hcd := settledCreditDelta_cons_hit (o := o) rest hrem' hsm
          have hid := settledIsuDelta_cons_hit (o := o) rest hrem' hsm
          cases htr : ro.trade with
          | some t =>
            simp only [htr] at h
            rw [htr] at hbn hsa hcd hid
            by_cases hot : ro.otype = TradeType.sell
            · rw [if_pos hot] at h
              simp only [Except.ok.injEq, Prod.mk.injEq] at h
              obtain ⟨hl, hrc, hri, htc, hti⟩ := h
              subst hl hrc hri htc hti
              refine ⟨?_, ?_, ?_, ?_, hfa2⟩
              · rw [hbn, Hrc]; simp
              · rw [hsa, Hri]; simp
              · rw [hcd, Htc]; simp [hot]; ring
              · rw [hid, Hti]; simp [hot]; ring
            · rw [if_neg hot] at h
              simp only [Except.ok.injEq, Prod.mk.injEq] at h
              obtain ⟨hl, hrc, hri, htc, hti⟩ := h
              subst hl hrc hri htc hti
              refine ⟨?_, ?_, ?_, ?_, hfa2⟩
              · rw [hbn, Hrc]; simp
              · rw [hsa, Hri]; simp
              · rw [hcd, Htc]; simp [hot]; ring
              · rw [hid, Hti]; simp [hot]; ring
          | none =>
            simp only [htr] at h
            rw [htr] at hbn hsa hcd hid
            by_cases hot : ro.otype = TradeType.sell
            · rw [if_pos hot] at h
              simp only [Except.ok.injEq, Prod.mk.injEq] at h
              obtain ⟨hl, hrc, hri, htc, hti⟩ := h
              subst hl hrc hri htc hti
              refine ⟨?_, ?_, ?_, ?_, hfa2⟩
              · rw [hbn, Hrc]; simp [hot]
              · rw [hsa, Hri]; simp [hot]; ring
              · rw [hcd, Htc]; simp
              · rw [hid, Hti]; simp
            · rw [if_neg hot] at h
              simp only [Except.ok.injEq, Prod.mk.injEq] at h
              obtain ⟨hl, hrc, hri, htc, hti⟩ := h
              subst hl hrc hri htc hti
              have hbuy : ro.otype = TradeType.buy := by
                cases hx : ro.otype
                · exact absurd hx hot
                · rfl
              refine ⟨?_, ?_, ?_, ?_, hfa2⟩
              · rw [hbn, Hrc]; simp [hbuy]; ring
              · rw [hsa, Hri]; simp [hbuy]
              · rw [hcd, Htc]; simp
              · rw [hid, Hti]; simp

theorem updateOrders_ok_elim {s : InvestorState} {server : List Order} {now : Nat}
    {sN : InvestorState} (h : updateOrders s server now = UResult.ok sN) :
    ∃ l rc ri tc ti,
      mergeLoop server now s.orders = Except.ok (l, rc, ri, tc, ti) ∧
      sN = { s with
             orders := l, resvedIsu := ri, resvedCredit := rc,
             credit := s.defcredit + tc, isu := s.defisu + ti } := by
  simp only [updateOrders] at h
  cases hml : mergeLoop server now s.orders with
  | error m =>
    simp only [hml] at h
    cases hlast : s.orders.getLast? with
    | none => simp only [hlast] at h; simp at h
    | some lo =>
      simp only [hlast] at h
      by_cases hot : lo.otype = TradeType.sell
      · rw [if_pos hot] at h
        cases hgl : server.getLast? with
        | none => simp only [hgl] at h; simp at h
        | some glo =>
          simp only [hgl] at h
          by_cases hid : lo.id ≠ glo.id
          · rw [if_pos hid] at h; simp at h
          · rw [if_neg hid] at h; simp at h
      · rw [if_neg hot] at h; simp at h
  | ok tup =>
    obtain ⟨l, rc, ri, tc, ti⟩ := tup
    simp only [hml] at h
    refine ⟨l, rc, ri, tc, ti, rfl, ?_⟩
    cases hlast : s.orders.getLast? with
    | none =>
      simp only [hlast] at h
      exact (UResult.ok.inj h).symm
    | some lo =>
      simp only [hlast] at h
      by_cases hot : lo.otype = TradeType.sell
      · rw [if_pos hot] at h
        cases hgl : server.getLast? with
        | none => simp only [hgl] at h; simp at h
        | some glo =>
          simp only [hgl] at h
          by_cases hid : lo.id ≠ glo.id
          · rw [if_pos hid] at h; simp at h
          · rw [if_neg hid] at h; exact (UResult.ok.inj h).symm
      · rw [if_neg hot] at h; exact (UResult.ok.inj h).symm

theorem updateOrders_ok_intro {s : InvestorState} {server : List Order} {now : Nat}
    {l : List Order} {rc ri tc ti : Int}
    (hchk : lastOrderCheck s server = true)
    (hml : mergeLoop server now s.orders = Except.ok (l, rc, ri, tc, ti)) :
    updateOrders s server now =
      UResult.ok { s with
                   orders := l, resvedIsu := ri, resvedCredit := rc,
                   credit := s.defcredit + tc, isu := s.defisu + ti } := by
  rw [lastOrderCheck] at hchk
  simp only [updateOrders, hml]
  cases hlast : s.orders.getLast? with
  | none => simp only [hlast]
  | some lo =>
    simp only [hlast] at hchk ⊢
    by_cases hot : lo.otype = TradeType.sell
    · rw [if_pos hot] at hchk ⊢
      cases hgl : server.getLast? with
      | none => simp only [hgl] at hchk; cases hchk
      | some glo =>
        simp only [hgl] at hchk ⊢
        have hide : lo.id = glo.id := by simpa using hchk
        rw [if_neg (by simp [hide])]
    · rw [if_neg hot]

theorem mergeLoop_missing_sell_not_ok (server : List Order) (now : Nat) :
    ∀ orders : List Order,
      (∃ o ∈ orders, o.removed = false ∧ o.otype = TradeType.sell ∧
        serverMatch server o = none) →
      ∀ out, mergeLoop server now orders ≠ Except.ok out := by
  intro orders
  induction orders with
  | nil =>
    rintro ⟨o, ho, -⟩
    simp at ho
  | cons o rest ih =>
    rintro ⟨p, hp, hprem, hpsell, hpmiss⟩ out h
    rw [mergeLoop] at h
    rcases List.mem_cons.mp hp with hpo | hprest
    · subst hpo
      rw [if_neg (by simp [hprem])] at h
      simp only [hpmiss] at h
      rw [if_pos hpsell] at h
      simp at h
    · by_cases hrem : o.removed = true
      · rw [if_pos hrem] at h
        cases hml : mergeLoop server now rest with
        | error m => simp [hml] at h
        | ok tup => exact ih ⟨p, hprest, hprem, hpsell, hpmiss⟩ tup hml
      · rw [if_neg hrem] at h
        cases hsm : serverMatch server o with
        | none =>
          simp only [hsm] at h
          by_cases hot : o.otype = TradeType.sell
          · rw [if_pos hot] at h; simp at h
          · rw [if_neg hot] at h
            cases hml : mergeLoop server now rest with
            | error m => simp [hml] at h
            | ok tup => exact ih ⟨p, hprest, hprem, hpsell, hpmiss⟩ tup hml
        | some ro =>
          simp only [hsm] at h
          cases hml : mergeLoop server now rest with
          | error m => simp [hml] at h
          | ok tup => exact ih ⟨p, hprest, hprem, hpsell, hpmiss⟩ tup hml

theorem mergeLoop_total (server : List Order) (now : Nat) :
    ∀ orders : List Order,
      (∀ o ∈ orders, o.removed = false → serverMatch server o = none →
        o.otype = TradeType.buy) →
      ∃ out, mergeLoop server now orders = Except.ok out := by
  intro orders
  induction orders with
  | nil => intro _; exact ⟨([], 0, 0, 0, 0), rfl⟩
  | cons o rest ih =>
    intro hall
    obtain ⟨⟨l, rc, ri, tc, ti⟩, hml⟩ :=
      ih (fun p hp => hall p (List.mem_cons_of_mem _ hp))
    rw [mergeLoop]
    by_cases hrem : o.removed = true
    · rw [if_pos hrem]
      simp only [hml]
      exact ⟨_, rfl⟩
    · have hrem2 : o.removed = false := by
        cases hb : o.removed
        · rfl
        · exact absurd hb hrem
      rw [if_neg hrem]
      cases hsm : serverMatch server o with
      | none =>
        have hbuy := hall o (List.mem_cons_self o rest) hrem2 hsm
        simp only [hml]
        rw [if_neg (by simp [hbuy])]
        exact ⟨_, rfl⟩
      | some ro =>
        cases htr : ro.trade with
        | some t =>
          simp only [hml, htr]
          by_cases hot : ro.otype = TradeType.sell
          · rw [if_pos hot]; exact ⟨_, rfl⟩
          · rw [if_neg hot]; exact ⟨_, rfl⟩
        | none =>
          simp only [hml, htr]
          by_cases hot : ro.otype = TradeType.sell
          · rw [if_pos hot]; exact ⟨_, rfl⟩
          · rw [if_neg hot]; exact ⟨_, rfl⟩

/-- Counterexample to claim C1 as stated: a reconciliation can complete
successfully while leaving available credit negative — `UpdateOrders`
reports nothing.  Here the investor's endowment is 100 but the server
confirms an open buy of notional 1000, and the merge succeeds. -/
theorem updateOrders_negative_available_cex :
    ∃ sN, updateOrders c1state [c1buy] 5 = UResult.ok sN ∧
      sN.credit - sN.resvedCredit < 0 := by
  refine ⟨{ c1state with resvedCredit := 1000 }, by decide, by decide⟩

/-- Claim C1 (amended): `UpdateOrders` performs no non-negativity check
and never clamps: after a successful reconciliation, available credit
(resp. inventory) is non-negative exactly when the sums recomputed from
the server-reported order list say so — the code adds no enforcement of
its own, and a violation is not reported. -/
theorem updateOrders_available_iff_recomputed
    (s : InvestorState) (server : List Order) (now : Nat) (sN : InvestorState)
    (h : updateOrders s server now = UResult.ok sN) :
    (0 ≤ sN.credit - sN.resvedCredit ↔
      openBuyNotional s.orders server ≤
        s.defcredit + settledCreditDelta s.orders server) ∧
    (0 ≤ sN.isu - sN.resvedIsu ↔
      openSellAmount s.orders server ≤
        s.defisu + settledIsuDelta s.orders server) := by
  obtain ⟨l, rc, ri, tc, ti, hml, hsN⟩ := updateOrders_ok_elim h
  obtain ⟨h1, h2, h3, h4, -⟩ := mergeLoop_ok_spec server now s.orders l rc ri tc ti hml
  subst hsN
  constructor
  · show 0 ≤ s.defcredit + tc - rc ↔ _
    omega
  · show 0 ≤ s.defisu + ti - ri ↔ _
    omega

/-- Witness for the amended C1 at a concrete successful reconciliation
(a fresh investor against an empty server list). -/
theorem updateOrders_available_iff_recomputed_wit :
    (0 ≤ baseState.credit - baseState.resvedCredit ↔
      openBuyNotional baseState.orders [] ≤
        baseState.defcredit + settledCreditDelta baseState.orders []) ∧
    (0 ≤ baseState.isu - baseState.resvedIsu ↔
      openSellAmount baseState.orders [] ≤
        baseState.defisu + settledIsuDelta baseState.orders []) :=
  updateOrders_available_iff_recomputed baseState [] 0 baseState (by decide)

/-- Claim C2 (confirmed): a successful `UpdateOrders` sets the reserved
amounts to sums recomputed from scratch over the unsettled open buy
(notional) and sell (amount) orders of the merged server view, and sets
credit and inventory to the starting endowment plus the net effect of
the settled trades it observes (settled sell: inventory −amount, credit
+amount × trade price; settled buy: the inverse).  The spec's scenario —
endowment 10000/0, a buy of 5 fully settled at 90, yielding inventory 5
and credit 9550 — is the witness below. -/
theorem updateOrders_recomputes_from_scratch
    (s : InvestorState) (server : List Order) (now : Nat) (sN : InvestorState)
    (h : updateOrders s server now = UResult.ok sN) :
    sN.resvedCredit = openBuyNotional s.orders server ∧
    sN.resvedIsu = openSellAmount s.orders server ∧
    sN.credit = s.defcredit + settledCreditDelta s.orders server ∧
    sN.isu = s.defisu + settledIsuDelta s.orders server := by
  obtain ⟨l, rc, ri, tc, ti, hml, hsN⟩ := updateOrders_ok_elim h
  obtain ⟨h1, h2, h3, h4, -⟩ := mergeLoop_ok_spec server now s.orders l rc ri tc ti hml
  subst hsN
  exact ⟨h1, h2, by simp [h3], by simp [h4]⟩

/-- Witness for C2: the spec's settlement scenario — the buy of 5 at
limit 100 settles at 90; reconciliation yields credit 9550 and
inventory 5, matching the recomputed settled-trade delta. -/
theorem updateOrders_recomputes_from_scratch_wit :
    updateOrders c2state [c2srv] 7 = UResult.ok c2after ∧
    c2after.credit = 9550 ∧ c2after.isu = 5 ∧
    c2after.credit = c2state.defcredit + settledCreditDelta c2state.orders [c2srv] :=
  ⟨by decide, by decide, by decide,
    (updateOrders_recomputes_from_scratch c2state [c2srv] 7 c2after (by decide)).2.2.1⟩

/-- Claim C3 (confirmed): during reconciliation, a live locally-tracked
order with no server match by id is (a) fatal when it is a sell —
`UpdateOrders` can never succeed; (b) treated as auto-cancelled when it
is a buy — in any successful run it is marked closed locally at the
current time (pointwise over the order list); and (c) never by itself
an error — if the pre-merge check passes and every live unmatched order
is a buy, reconciliation succeeds. -/
theorem updateOrders_missing_order_cases
    (s : InvestorState) (server : List Order) (now : Nat) :
    ((∃ o ∈ s.orders, o.removed = false ∧ o.otype = TradeType.sell ∧
        serverMatch server o = none) →
      ∀ sN, updateOrders s server now ≠ UResult.ok sN) ∧
    (∀ sN, updateOrders s server now = UResult.ok sN →
      List.Forall₂ (fun o oN =>
        o.removed = false → serverMatch server o = none →
          oN = { o with closedAt := some now }) s.orders sN.orders) ∧
    (lastOrderCheck s server = true →
      (∀ o ∈ s.orders, o.removed = false → serverMatch server o = none →
        o.otype = TradeType.buy) →
      ∃ sN, updateOrders s server now = UResult.ok sN) := by
  refine ⟨?_, ?_, ?_⟩
  · intro hex sN h
    obtain ⟨l, rc, ri, tc, ti, hml, -⟩ := updateOrders_ok_elim h
    exact mergeLoop_missing_sell_not_ok server now s.orders hex _ hml
  · intro sN h
    obtain ⟨l, rc, ri, tc, ti, hml, hsN⟩ := updateOrders_ok_elim h
    have hfa := (mergeLoop_ok_spec server now s.orders l rc ri tc ti hml).2.2.2.2
    subst hsN
    exact hfa
  · intro hchk hall
    obtain ⟨⟨l, rc, ri, tc, ti⟩, hml⟩ := mergeLoop_total server now s.orders hall
    exact ⟨_, updateOrders_ok_intro hchk hml⟩

/-- Witness for C3: (a) a live sell with no server match makes
reconciliation fail; (b)/(c) a live buy with no server match is closed
at the current time and the run still succeeds. -/
theorem updateOrders_missing_order_cases_wit :
    (∀ sN, updateOrders s3aState srv3a 4 ≠ UResult.ok sN) ∧
    List.Forall₂ (fun o oN =>
      o.removed = false → serverMatch ([] : List Order) o = none →
        oN = { o with closedAt := some 4 }) s3bState.orders s3bAfter.orders ∧
    (∃ sN, updateOrders s3bState [] 4 = UResult.ok sN) :=
  ⟨(updateOrders_missing_order_cases s3aState srv3a 4).1 (by decide),
   (updateOrders_missing_order_cases s3bState [] 4).2.1 s3bAfter (by decide),
   (updateOrders_missing_order_cases s3bState [] 4).2.2 (by decide) (by decide)⟩

/-! ### Release-selection characterisation -/

theorem releaseLoop_acc (s : InvestorState) :
    ∀ (l : List Order) (b : Order),
      releaseLoop s (some b) (margin s b) l =
        match firstMaxMargin s l with
        | none => (some b, margin s b)
        | some c =>
          if margin s b < margin s c then (some c, margin s c)
          else (some b, margin s b) := by
  intro l
  induction l with
  | nil => intro b; rfl
  | cons o rest ih =>
    intro b
    rw [releaseLoop]
    simp only [Option.isNone_some, Bool.false_or, decide_eq_true_eq]
    by_cases hlt : margin s b < margin s o
    · rw [if_pos hlt, ih o]
      cases hfm : firstMaxMargin s rest with
      | none => simp [firstMaxMargin, hfm, hlt]
      | some c =>
        by_cases h2 : margin s o < margin s c
        · have h3 : margin s b < margin s c := by omega
          simp [firstMaxMargin, hfm, h2, h3]
        · simp [firstMaxMargin, hfm, h2, hlt]
    · rw [if_neg hlt, ih b]
      cases hfm : firstMaxMargin s rest with
      | none => simp [firstMaxMargin, hfm, hlt]
      | some c =>
        by_cases h2 : margin s o < margin s c
        · simp [firstMaxMargin, hfm, h2]
        · have h3 : ¬ margin s b < margin s c := by omega
          simp [firstMaxMargin, hfm, h2, hlt, h3]

theorem releaseLoop_start (s : InvestorState) (o : Order) (rest : List Order) :
    (releaseLoop s none 0 (o :: rest)).1 = firstMaxMargin s (o :: rest) := by
  rw [releaseLoop]
  simp only [Option.isNone_none, Bool.true_or, if_true]
  rw [releaseLoop_acc s rest o]
  cases hfm : firstMaxMargin s rest with
  | none => simp [firstMaxMargin, hfm]
  | some c =>
    by_cases h2 : margin s o < margin s c
    · simp [firstMaxMargin, hfm, h2]
    · simp [firstMaxMargin, hfm, h2]

theorem firstMaxMargin_isSome (s : InvestorState) (o : Order) (rest : List Order) :
    ∃ c, firstMaxMargin s (o :: rest) = some c := by
  rw [firstMaxMargin]
  cases hfm : firstMaxMargin s rest with
  | none => exact ⟨o, rfl⟩
  | some b =>
    by_cases hc : margin s o < margin s b
    · exact ⟨b, by simp [hc]⟩
    · exact ⟨o, by simp [hc]⟩

theorem firstMaxMargin_mem (s : InvestorState) :
    ∀ (l : List Order) (o : Order), firstMaxMargin s l = some o → o ∈ l := by
  intro l
  induction l with
  | nil => intro o h; simp [firstMaxMargin] at h
  | cons p rest ih =>
    intro o h
    rw [firstMaxMargin] at h
    cases hfm : firstMaxMargin s rest with
    | none =>
      simp only [hfm] at h
      exact (Option.some.inj h) ▸ List.mem_cons_self p rest
    | some b =>
      simp only [hfm] at h
      by_cases hc : margin s p < margin s b
      · rw [if_pos hc] at h
        exact (Option.some.inj h) ▸ List.mem_cons_of_mem p (ih b hfm)
      · rw [if_neg hc] at h
        exact (Option.some.inj h) ▸ List.mem_cons_self p rest

theorem firstMaxMargin_max (s : InvestorState) :
    ∀ (l : List Order) (o : Order), firstMaxMargin s l = some o →
      ∀ p ∈ l, margin s p ≤ margin s o := by
  intro l
  induction l with
  | nil => intro o h; simp [firstMaxMargin] at h
  | cons q rest ih =>
    intro o h p hp
    rw [firstMaxMargin] at h
    rcases List.mem_cons.mp hp with hpq | hpr
    · subst hpq
      cases hfm : firstMaxMargin s rest with
      | none =>
        simp only [hfm] at h
        exact le_of_eq (congrArg (margin s) (Option.some.inj h))
      | some b =>
        simp only [hfm] at h
        by_cases hc : margin s p < margin s b
        · rw [if_pos hc] at h
          rw [← Option.some.inj h]
          omega
        · rw [if_neg hc] at h
          exact le_of_eq (congrArg (margin s) (Option.some.inj h))
    · cases hfm : firstMaxMargin s rest with
      | none =>
        exfalso
        cases rest with
        | nil => simp at hpr
        | cons r rr =>
          obtain ⟨c, hc⟩ := firstMaxMargin_isSome s r rr
          rw [hc] at hfm
          cases hfm
      | some b =>
        have hb := ih b hfm p hpr
        simp only [hfm] at h
        by_cases hc : margin s q < margin s b
        · rw [if_pos hc] at h
          rw [← Option.some.inj h]
          omega
        · rw [if_neg hc] at h
          rw [← Option.some.inj h]
          omega

/-- Claim C4 (amended): for every non-retired investor whose *recorded*
order list (open and closed orders alike) has reached `OrderCap` and
whose recency gate passes, the decision policy proposes a cancellation
(never a placement) of the first order of the whole recorded list
attaining the maximal opposing-price margin — sell margin: price minus
`highestBuyPrice`; buy margin: `lowestSellPrice` minus price; ties go
to the first encountered.  The scan is *not* restricted to open
orders. -/
theorem updateOrderTask_cap_releases_first_max_margin
    (s : InvestorState) (now : Nat) (randInt : Int → Int)
    (hret : s.retired = false) (hcap : OrderCap ≤ s.orders.length)
    (hfresh : now < s.lastOrder + OrderUpdateInterval) :
    ∃ o, firstMaxMargin s s.orders = some o ∧ o ∈ s.orders ∧
      (∀ p ∈ s.orders, margin s p ≤ margin s o) ∧
      updateOrderTask s now randInt = (some (TaskTag.removeOrder o.id), s) := by
  obtain ⟨q, rest, hqr⟩ : ∃ q rest, s.orders = q :: rest := by
    cases horders : s.orders with
    | nil => rw [horders] at hcap; simp [OrderCap] at hcap
    | cons q rest => exact ⟨q, rest, rfl⟩
  obtain ⟨o, hfm⟩ : ∃ o, firstMaxMargin s s.orders = some o := by
    rw [hqr]; exact firstMaxMargin_isSome s q rest
  refine ⟨o, hfm, firstMaxMargin_mem s _ o hfm, firstMaxMargin_max s _ o hfm, ?_⟩
  have htarget : (releaseLoop s none 0 s.orders).1 = some o := by
    rw [hqr, releaseLoop_start, ← hqr, hfm]
  simp only [updateOrderTask]
  rw [if_neg (by simp [hret])]
  have hupd : (s.orders.length == 0 ||
      decide (now < s.lastOrder + OrderUpdateInterval)) = true := by
    simp [hfresh]
  rw [hupd]
  simp only [Bool.not_true]
  rw [if_neg (by simp)]
  rw [if_pos hcap]
  obtain ⟨bo, hbo⟩ : ∃ bo, releaseLoop s none 0 s.orders = bo := ⟨_, rfl⟩
  obtain ⟨b1, b2⟩ := bo
  rw [hbo] at htarget ⊢
  simp only at htarget
  rw [htarget]

/-- Witness for the amended C4: the concrete capped investor's proposal
is the cancellation of the first maximal-margin recorded order. -/
theorem updateOrderTask_cap_releases_first_max_margin_wit :
    ∃ o, firstMaxMargin c4state c4state.orders = some o ∧ o ∈ c4state.orders ∧
      (∀ p ∈ c4state.orders, margin c4state p ≤ margin c4state o) ∧
      updateOrderTask c4state 5 zeroRand = (some (TaskTag.removeOrder o.id), c4state) :=
  updateOrderTask_cap_releases_first_max_margin c4state 5 zeroRand
    (by decide) (by decide) (by decide)
